import Mathlib

/-!
Verification development for the `obsidian-copy-external` plugin
(`src/main.ts`): a one-way synchronizer that mirrors vault files into an
external target directory.

Modelling conventions (shallow embedding):

* Filesystem paths are lists of path segments (`FPath`); `path.join(a, b)`
  becomes list append and `path.dirname` becomes `List.dropLast`.  The
  resolved target root (`expandTargetPath()` followed by `path.join`) is
  passed to each operation as a `FPath` value named `root`.
* The external filesystem is an association list from paths to entries
  (`FS`); a `stat` is a lookup.  File contents are byte lists; modification
  times are natural numbers (milliseconds).  Writes stamp the current clock
  value `now`, which is passed explicitly.
* Node `fs/promises` primitives are modelled as `Except FsErr` functions
  over a state that also records the trace of performed write operations
  (`ops`), the emitted notices (`Notice` calls) and the console log lines.
  `fs.mkdir` with `recursive: true` creates every missing ancestor and
  fails when a path component exists as a non-directory (EEXIST), matching
  Node behaviour; `fs.writeFile` fails on a directory target (EISDIR);
  `fs.rm` fails on a missing path (ENOENT) and on a directory (this model
  does not need the recursive flag); `fs.rename` fails when the old path
  is missing (ENOENT) or when a file would replace a directory.  Parent
  existence is not re-checked by `writeFile`/`mkdir` since every caller in
  the source materializes parents first.
* The Obsidian vault is an external collaborator: a pure record providing
  `getFiles()`, `adapter.stat` and `adapter.readBinary`.
* String messages elide the single-quote characters of the original
  template literals.
-/

/-- A filesystem path as a list of segments (`path.join` = append,
`path.dirname` = `dropLast`). -/
abbrev FPath := List String

/-- A directory entry of the external (target) filesystem: a directory or a
file with binary content and an mtime in milliseconds. -/
inductive FSEntry where
  | dir (mtime : Nat)
  | file (content : List Nat) (mtime : Nat)
deriving DecidableEq, Repr

/-- The `mtime` reported by `fs.stat` for either entry kind. -/
def FSEntry.mtime : FSEntry → Nat
  | .dir m => m
  | .file _ m => m

/-- The external filesystem: an association list from paths to entries. -/
abbrev FS := List (FPath × FSEntry)

/-- Lookup of a path in the filesystem (a successful `fs.stat`). -/
def FS.stat : FS → FPath → Option FSEntry
  | [], _ => none
  | pe :: rest, p => if pe.1 = p then some pe.2 else FS.stat rest p

/-- Remove every entry recorded at exactly `p`. -/
def FS.erase : FS → FPath → FS
  | [], _ => []
  | pe :: rest, p => if pe.1 = p then FS.erase rest p else pe :: FS.erase rest p

/-- Create or replace the entry at `p`. -/
def FS.setEntry (fs : FS) (p : FPath) (e : FSEntry) : FS :=
  (p, e) :: FS.erase fs p

/-- One performed filesystem write operation (the observable effect trace). -/
inductive FSOp where
  | mkdir (p : FPath)
  | writeFile (p : FPath)
  | rm (p : FPath)
  | rename (oldP newP : FPath)
deriving DecidableEq, Repr

/-- Errors raised by the modelled `fs/promises` primitives. -/
inductive FsErr where
  | enoent
  | eexist
  | eisdir
deriving DecidableEq, Repr

/-- The state threaded through every handler: the target filesystem, the
trace of performed write operations, the emitted `Notice` messages, and the
console log lines. -/
structure SyncSt where
  fs : FS
  ops : List FSOp
  notices : List String
  logs : List String
deriving DecidableEq, Repr

/-- Record a performed filesystem operation. -/
def addOp (st : SyncSt) (o : FSOp) : SyncSt :=
  { st with ops := st.ops ++ [o] }

/-- Emit a `new Notice(...)` message. -/
def addNotice (st : SyncSt) (m : String) : SyncSt :=
  { st with notices := st.notices ++ [m] }

/-- Emit a console log/warn/error line. -/
def addLog (st : SyncSt) (m : String) : SyncSt :=
  { st with logs := st.logs ++ [m] }

/-- Model of `fs.writeFile(p, content)`: truncate-or-create; fails with
EISDIR when a directory sits at `p`; stamps mtime `now`. -/
def fsWriteFile (st : SyncSt) (p : FPath) (content : List Nat) (now : Nat) :
    Except FsErr SyncSt :=
  match FS.stat st.fs p with
  | some (FSEntry.dir _) => .error .eisdir
  | _ =>
    .ok (addOp { st with fs := FS.setEntry st.fs p (FSEntry.file content now) }
          (FSOp.writeFile p))

/-- Model of plain `fs.mkdir(p)` (no `recursive`): fails with EEXIST when
anything already sits at `p`. -/
def fsMkdir (st : SyncSt) (p : FPath) (now : Nat) : Except FsErr SyncSt :=
  match FS.stat st.fs p with
  | some _ => .error .eexist
  | none =>
    .ok (addOp { st with fs := FS.setEntry st.fs p (FSEntry.dir now) }
          (FSOp.mkdir p))

/-- Model of `fs.rm(p)`: fails with ENOENT when missing; fails on a
directory (the source only removes file entries this way). -/
def fsRm (st : SyncSt) (p : FPath) : Except FsErr SyncSt :=
  match FS.stat st.fs p with
  | none => .error .enoent
  | some (FSEntry.dir _) => .error .eisdir
  | some (FSEntry.file _ _) =>
    .ok (addOp { st with fs := FS.erase st.fs p } (FSOp.rm p))

/-- Worker for `fs.mkdir(p, { recursive: true })`: walk the components left
to right, skipping existing directories, creating missing ones (stamped
`now`), and failing with EEXIST on a component that exists as a file. -/
def mkdirRec (now : Nat) : SyncSt → FPath → List String → Except FsErr SyncSt
  | st, _, [] => .ok st
  | st, pre, c :: rest =>
    match FS.stat st.fs (pre ++ [c]) with
    | some (FSEntry.dir _) => mkdirRec now st (pre ++ [c]) rest
    | some (FSEntry.file _ _) => .error .eexist
    | none =>
      mkdirRec now
        (addOp { st with fs := FS.setEntry st.fs (pre ++ [c]) (FSEntry.dir now) }
          (FSOp.mkdir (pre ++ [c])))
        (pre ++ [c]) rest

/-- Model of `fs.mkdir(p, { recursive: true })`. -/
def fsMkdirRecursive (st : SyncSt) (p : FPath) (now : Nat) : Except FsErr SyncSt :=
  mkdirRec now st [] p

/-- Paths moved by `fs.rename`: entries at or below `oldP` are re-rooted at
`newP`; a pre-existing entry exactly at `newP` is replaced. -/
def FS.renameEntries (fs : FS) (oldP newP : FPath) : FS :=
  (FS.erase fs newP).map
    (fun pe =>
      if List.isPrefixOf oldP pe.1 then (newP ++ List.drop oldP.length pe.1, pe.2)
      else pe)

/-- Model of `fs.rename(oldP, newP)`: ENOENT when `oldP` is missing; fails
when a file would replace a directory; otherwise moves the subtree. -/
def fsRename (st : SyncSt) (oldP newP : FPath) : Except FsErr SyncSt :=
  match FS.stat st.fs oldP with
  | none => .error .enoent
  | some (FSEntry.file _ _) =>
    match FS.stat st.fs newP with
    | some (FSEntry.dir _) => .error .eisdir
    | _ =>
      .ok (addOp { st with fs := FS.renameEntries st.fs oldP newP }
            (FSOp.rename oldP newP))
  | some (FSEntry.dir _) =>
    .ok (addOp { st with fs := FS.renameEntries st.fs oldP newP }
          (FSOp.rename oldP newP))

theorem FS.stat_setEntry (fs : FS) (p : FPath) (e : FSEntry) (q : FPath) :
    FS.stat (FS.setEntry fs p e) q = if p = q then some e else FS.stat fs q := by
  unfold FS.setEntry
  show (if p = q then some e else FS.stat (FS.erase fs p) q) = _
  by_cases h : p = q
  · simp [h]
  · have h2 : ¬q = p := fun hh => h hh.symm
    simp only [if_neg h]
    induction fs with
    | nil => rfl
    | cons pe rest ih =>
      by_cases hq : pe.1 = p
      · simp [FS.erase, FS.stat, hq, h, h2, ih]
      · by_cases hq2 : pe.1 = q <;> simp [FS.erase, FS.stat, hq, hq2, h2, ih]

theorem FS.stat_erase_of_ne (fs : FS) (p q : FPath) (h : ¬p = q) :
    FS.stat (FS.erase fs p) q = FS.stat fs q := by
  have h2 : ¬q = p := fun hh => h hh.symm
  induction fs with
  | nil => rfl
  | cons pe rest ih =>
    by_cases hq : pe.1 = p
    · simp [FS.erase, FS.stat, hq, h, h2, ih]
    · by_cases hq2 : pe.1 = q <;> simp [FS.erase, FS.stat, hq, hq2, h, h2, ih]

/-- The result of `vault.adapter.stat`: only the `type` field is consulted
by the source (`"file"`, `"folder"`, or anything else). -/
structure AdapterStat where
  type : String
deriving DecidableEq, Repr

/-- The `type` of an optional adapter stat (`fileStat?.type`). -/
def statType (s : Option AdapterStat) : Option String :=
  Option.map AdapterStat.type s

/-- Text rendered for `fileStat?.type` in the unknown-kind warning
(`undefined` when the stat is absent). -/
def statTypeText : Option AdapterStat → String
  | none => "undefined"
  | some t => t.type

/-- An abstract vault item delivered with a create/modify/delete/rename
event (`TAbstractFile`): its vault-relative path and display name. -/
structure TAbstractFile where
  path : FPath
  name : String
deriving DecidableEq, Repr

/-- A vault file returned by `vault.getFiles()` during reconciliation: its
path and the source-side mtime (`file.stat.mtime`, milliseconds). -/
structure TFile where
  path : FPath
  mtime : Nat
deriving DecidableEq, Repr

/-- The vault collaborator: the current file listing, the binary reader and
the adapter stat, all pure snapshots. -/
structure Vault where
  files : List TFile
  readBinary : FPath → List Nat
  adapterStat : FPath → Option AdapterStat

/-- The plugin settings record (`CopyExternalPluginSettings`). -/
structure CopyExternalPluginSettings where
  targetDirectory : String
  notifyCreate : Bool
  notifyModify : Bool
  notifyDelete : Bool
  notifyRename : Bool
deriving DecidableEq, Repr

/-- The `DEFAULT_SETTINGS` constant. -/
def DEFAULT_SETTINGS : CopyExternalPluginSettings :=
  { targetDirectory := "$HOME/cs/test-notes"
    notifyCreate := true
    notifyModify := false
    notifyDelete := true
    notifyRename := true }

/-- Expansion of the JS replacement string: `$$` yields a dollar, `$&` the
matched substring, a dollar followed by a backquote the portion before the
match, a dollar followed by an apostrophe the portion after, and any other
dollar sequence stays literal (string-pattern `replace` has no capture
groups).  This is the documented `String.prototype.replace` behaviour. -/
def dollarExpand (matched before after : List Char) : List Char → List Char
  | [] => []
  | [c] => [c]
  | c :: d :: rest2 =>
    if c = '$' then
      if d = '$' then '$' :: dollarExpand matched before after rest2
      else if d = '&' then matched ++ dollarExpand matched before after rest2
      else if d.toNat = 96 then before ++ dollarExpand matched before after rest2
      else if d.toNat = 39 then after ++ dollarExpand matched before after rest2
      else '$' :: dollarExpand matched before after (d :: rest2)
    else c :: dollarExpand matched before after (d :: rest2)

/-- Worker for `String.prototype.replace` with a string pattern: find the
first occurrence of `pat`, splice in the expanded replacement, leave the
rest untouched.  `seen` is the reversed prefix already scanned. -/
def replaceOnceAux (pat rep : List Char) (seen : List Char) :
    List Char → List Char
  | [] => seen.reverse
  | c :: rest =>
    if List.isPrefixOf pat (c :: rest) then
      seen.reverse ++
        dollarExpand pat seen.reverse (List.drop pat.length (c :: rest)) rep ++
        List.drop pat.length (c :: rest)
    else replaceOnceAux pat rep (c :: seen) rest

/-- JS `s.replace(pat, rep)` with a string pattern: first occurrence only,
with dollar-escape expansion of the replacement. -/
def jsReplaceFirst (s pat rep : String) : String :=
  String.mk (replaceOnceAux pat.data rep.data [] s.data)

/-- Worker for literal first-occurrence substitution (no dollar escapes). -/
def replaceOnceLit (pat rep : List Char) (seen : List Char) :
    List Char → List Char
  | [] => seen.reverse
  | c :: rest =>
    if List.isPrefixOf pat (c :: rest) then
      seen.reverse ++ rep ++ List.drop pat.length (c :: rest)
    else replaceOnceLit pat rep (c :: seen) rest

/-- Modelled from the spec: substitution of the first occurrence of the
placeholder by the home value taken verbatim — what "substituted by the
resolved home-directory value" literally demands. -/
def literalReplaceFirst (s pat rep : String) : String :=
  String.mk (replaceOnceLit pat.data rep.data [] s.data)

/-- The path resolver `expandTargetPath()`: when the environment provides a
`HOME` string, JS-replace `$HOME` in the configured target directory with
it; otherwise return the configured string unchanged. -/
def expandTargetPath (s : CopyExternalPluginSettings) (homeEnv : Option String) :
    String :=
  match homeEnv with
  | some home => jsReplaceFirst s.targetDirectory "$HOME" home
  | none => s.targetDirectory

/-- Slash-joined rendering of a segment path for log/notice messages. -/
def pathText (p : FPath) : String :=
  String.intercalate "/" p

/-- The warning logged by every operation when the target root is
unavailable. -/
def unavailableMsg (s : CopyExternalPluginSettings) : String :=
  "Target path " ++ s.targetDirectory ++ " does not exist; no synching will take place."

/-- The reconciliation summary message. -/
def summaryMessage (fileCount created updated : Nat) : String :=
  "Synced " ++ toString fileCount ++ " files; " ++ toString created ++
    " created, " ++ toString updated ++ " updated."

/-- The rename-failure message (console.error and Notice). -/
def renameFailMsg (oldTargetPath newTargetPath : FPath) : String :=
  "Failed to rename " ++ pathText oldTargetPath ++ " to " ++ pathText newTargetPath

/-- `targetPathExists()`: stat the resolved target root and require a
directory; any stat failure yields `false`. -/
def targetPathExists (fs : FS) (root : FPath) : Bool :=
  match FS.stat fs root with
  | some (FSEntry.dir _) => true
  | some (FSEntry.file _ _) => false
  | none => false

/-- `safeStat(file)`: a stat that returns `null` instead of throwing. -/
def safeStat (fs : FS) (p : FPath) : Option FSEntry :=
  FS.stat fs p

/-- `ensureParentDirectory(targetPath)`: stat the parent (`dirname`); if it
is a directory, return; otherwise create it recursively. -/
def ensureParentDirectory (now : Nat) (st : SyncSt) (targetPath : FPath) :
    Except FsErr SyncSt :=
  match safeStat st.fs targetPath.dropLast with
  | some (FSEntry.dir _) => .ok st
  | _ => fsMkdirRecursive st targetPath.dropLast now

/-- `ensureTargetPath(file)`: join the resolved root with the vault path,
ensure the parent directory, and return the target path. -/
def ensureTargetPath (now : Nat) (st : SyncSt) (root : FPath) (filePath : FPath) :
    Except FsErr (FPath × SyncSt) :=
  match ensureParentDirectory now st (root ++ filePath) with
  | .error e => .error e
  | .ok st2 => .ok (root ++ filePath, st2)

/-- `syncFileCreate(file)`: log, gate on target availability, adapter-stat
the item, ensure the target parent, then mkdir for a folder, write the
binary content for a file (with optional create notice), or warn on an
unknown kind. -/
def syncFileCreate (v : Vault) (s : CopyExternalPluginSettings) (root : FPath)
    (now : Nat) (st : SyncSt) (file : TAbstractFile) : Except FsErr SyncSt :=
  let st := addLog st ("Syncing new file: " ++ pathText file.path)
  if !targetPathExists st.fs root then
    .ok (addLog st (unavailableMsg s))
  else
    let fileStat := v.adapterStat file.path
    match ensureTargetPath now st root file.path with
    | .error e => .error e
    | .ok (targetPath, st2) =>
      if statType fileStat = some "folder" then
        fsMkdir st2 targetPath now
      else if statType fileStat = some "file" then
        match fsWriteFile st2 targetPath (v.readBinary file.path) now with
        | .error e => .error e
        | .ok st3 =>
          .ok (if s.notifyCreate then
                 addNotice st3 ("Synced new file " ++ file.name)
               else st3)
      else
        .ok (addLog st2 ("Unknown file type: " ++ statTypeText fileStat))

/-- `syncFileModify(file)`: log, gate, ensure the target parent, overwrite
the binary content, optional modify notice. -/
def syncFileModify (v : Vault) (s : CopyExternalPluginSettings) (root : FPath)
    (now : Nat) (st : SyncSt) (file : TAbstractFile) : Except FsErr SyncSt :=
  let st := addLog st ("Synching modified file: " ++ pathText file.path)
  if !targetPathExists st.fs root then
    .ok (addLog st (unavailableMsg s))
  else
    match ensureTargetPath now st root file.path with
    | .error e => .error e
    | .ok (targetPath, st2) =>
      match fsWriteFile st2 targetPath (v.readBinary file.path) now with
      | .error e => .error e
      | .ok st3 =>
        .ok (if s.notifyModify then
               addNotice st3 ("Synced modified file " ++ file.name)
             else st3)

/-- `syncFileDelete(file)`: log, gate, remove the target path, optional
delete notice. -/
def syncFileDelete (s : CopyExternalPluginSettings) (root : FPath)
    (st : SyncSt) (file : TAbstractFile) : Except FsErr SyncSt :=
  let st := addLog st ("Syncing deletion of file " ++ pathText file.path)
  if !targetPathExists st.fs root then
    .ok (addLog st (unavailableMsg s))
  else
    match fsRm st (root ++ file.path) with
    | .error e => .error e
    | .ok st2 =>
      .ok (if s.notifyDelete then
             addNotice st2 ("Synced deleted file " ++ file.name)
           else st2)

/-- `syncFileRename(file, oldPath)`: log, gate, ensure the new parent, then
try the rename — on success an optional rename notice, on any rename
failure a caught error logged and surfaced as an unconditional failure
notice. -/
def syncFileRename (s : CopyExternalPluginSettings) (root : FPath) (now : Nat)
    (st : SyncSt) (file : TAbstractFile) (oldPath : FPath) : Except FsErr SyncSt :=
  let st := addLog st
    ("Syncing file rename from " ++ pathText oldPath ++ " to " ++ pathText file.path)
  if !targetPathExists st.fs root then
    .ok (addLog st (unavailableMsg s))
  else
    match ensureParentDirectory now st (root ++ file.path) with
    | .error e => .error e
    | .ok st2 =>
      match fsRename st2 (root ++ oldPath) (root ++ file.path) with
      | .ok st3 =>
        .ok (if s.notifyRename then
               addNotice st3
                 ("Synced rename file " ++ file.name ++ " (was " ++ pathText oldPath ++ ")")
             else st3)
      | .error _ =>
        .ok (addNotice
              (addLog st2 (renameFailMsg (root ++ oldPath) (root ++ file.path)))
              (renameFailMsg (root ++ oldPath) (root ++ file.path)))

/-- The running state of `syncExistingFiles`: the sync state plus the three
loop counters. -/
structure ReconSt where
  st : SyncSt
  fileCount : Nat
  created : Nat
  updated : Nat
deriving DecidableEq, Repr

/-- One iteration of the reconciliation loop: count the file, stat its
target path; absent target → read, ensure parent, write, count a create;
present and strictly stale → read, write, count an update; otherwise do
nothing. -/
def reconStep (v : Vault) (targetDir : FPath) (now : Nat) (r : ReconSt)
    (file : TFile) : Except FsErr ReconSt :=
  let r1 : ReconSt := { r with fileCount := r.fileCount + 1 }
  let targetPath := targetDir ++ file.path
  match safeStat r1.st.fs targetPath with
  | none =>
    match ensureParentDirectory now r1.st targetPath with
    | .error e => .error e
    | .ok stA =>
      match fsWriteFile stA targetPath (v.readBinary file.path) now with
      | .error e => .error e
      | .ok stB => .ok { r1 with st := stB, created := r1.created + 1 }
  | some targetStat =>
    if FSEntry.mtime targetStat < file.mtime then
      match fsWriteFile r1.st targetPath (v.readBinary file.path) now with
      | .error e => .error e
      | .ok stB => .ok { r1 with st := stB, updated := r1.updated + 1 }
    else
      .ok r1

/-- The `for (const file of this.app.vault.getFiles())` loop. -/
def reconLoop (v : Vault) (targetDir : FPath) (now : Nat) :
    ReconSt → List TFile → Except FsErr ReconSt
  | r, [] => .ok r
  | r, f :: rest =>
    match reconStep v targetDir now r f with
    | .error e => .error e
    | .ok r2 => reconLoop v targetDir now r2 rest

/-- `syncExistingFiles()`: gate on target availability, loop over the full
vault file listing, then log and emit the single summary notice. -/
def syncExistingFiles (v : Vault) (s : CopyExternalPluginSettings) (root : FPath)
    (now : Nat) (st : SyncSt) : Except FsErr SyncSt :=
  if !targetPathExists st.fs root then
    .ok (addLog st (unavailableMsg s))
  else
    let st1 := addLog st "Syncing existing files ..."
    match reconLoop v root now { st := st1, fileCount := 0, created := 0, updated := 0 } v.files with
    | .error e => .error e
    | .ok r =>
      .ok (addNotice
            (addLog r.st (summaryMessage r.fileCount r.created r.updated))
            (summaryMessage r.fileCount r.created r.updated))

theorem targetPathExists_true_iff (fs : FS) (root : FPath) :
    targetPathExists fs root = true ↔ ∃ m, FS.stat fs root = some (FSEntry.dir m) := by
  unfold targetPathExists
  cases h : FS.stat fs root with
  | none => simp
  | some e => cases e <;> simp

theorem mkdirRec_preserves (now : Nat) (comps : List String) :
    ∀ (st : SyncSt) (pre : FPath) (st' : SyncSt),
      mkdirRec now st pre comps = .ok st' →
      ∀ q e, FS.stat st.fs q = some e → FS.stat st'.fs q = some e := by
  induction comps with
  | nil =>
    intro st pre st' h q e hq
    simp only [mkdirRec] at h
    cases h
    exact hq
  | cons c rest ih =>
    intro st pre st' h q e hq
    simp only [mkdirRec] at h
    split at h
    · exact ih _ _ _ h q e hq
    · cases h
    · rename_i heq
      refine ih _ _ _ h q e ?_
      simp only [addOp]
      rw [FS.stat_setEntry]
      have hne : ¬pre ++ [c] = q := by
        intro hh
        rw [hh] at heq
        rw [heq] at hq
        cases hq
      simp [hne, hq]

theorem mkdirRec_changes (now : Nat) (comps : List String) :
    ∀ (st : SyncSt) (pre : FPath) (st' : SyncSt),
      mkdirRec now st pre comps = .ok st' →
      ∀ q, FS.stat st'.fs q = FS.stat st.fs q ∨
        (FS.stat st.fs q = none ∧ FS.stat st'.fs q = some (FSEntry.dir now)) := by
  induction comps with
  | nil =>
    intro st pre st' h q
    simp only [mkdirRec] at h
    cases h
    exact Or.inl rfl
  | cons c rest ih =>
    intro st pre st' h q
    simp only [mkdirRec] at h
    split at h
    · exact ih _ _ _ h q
    · cases h
    · rename_i heq
      rcases ih _ _ _ h q with h2 | ⟨h2, h3⟩
      · rw [h2]
        simp only [addOp]
        rw [FS.stat_setEntry]
        by_cases hq : pre ++ [c] = q
        · right
          constructor
          · rw [← hq]; exact heq
          · simp [hq]
        · left; simp [hq]
      · simp only [addOp] at h2
        rw [FS.stat_setEntry] at h2
        by_cases hq : pre ++ [c] = q
        · simp [hq] at h2
        · right
          simp only [if_neg hq] at h2
          exact ⟨h2, h3⟩

theorem mkdirRec_trace (now : Nat) (comps : List String) :
    ∀ (st : SyncSt) (pre : FPath) (st' : SyncSt),
      mkdirRec now st pre comps = .ok st' →
      ∃ l, st'.ops = st.ops ++ l ∧ (∀ o ∈ l, ∃ p, o = FSOp.mkdir p) ∧
        st'.notices = st.notices ∧ st'.logs = st.logs := by
  induction comps with
  | nil =>
    intro st pre st' h
    simp only [mkdirRec] at h
    cases h
    exact ⟨[], by simp⟩
  | cons c rest ih =>
    intro st pre st' h
    simp only [mkdirRec] at h
    split at h
    · exact ih _ _ _ h
    · cases h
    · rcases ih _ _ _ h with ⟨l, h1, h2, h3, h4⟩
      refine ⟨FSOp.mkdir (pre ++ [c]) :: l, ?_, ?_, ?_, ?_⟩
      · rw [h1]; simp [addOp]
      · intro o ho
        rcases List.mem_cons.mp ho with ho | ho
        · exact ⟨pre ++ [c], ho⟩
        · exact h2 o ho
      · rw [h3]; rfl
      · rw [h4]; rfl

theorem mkdirRec_ensures (now : Nat) (comps : List String) :
    ∀ (st : SyncSt) (pre : FPath) (st' : SyncSt),
      mkdirRec now st pre comps = .ok st' →
      (∃ m, FS.stat st'.fs (pre ++ comps) = some (FSEntry.dir m)) ∨ comps = [] := by
  induction comps with
  | nil => intro st pre st' h; exact Or.inr rfl
  | cons c rest ih =>
    intro st pre st' h
    simp only [mkdirRec] at h
    left
    have hshape : pre ++ c :: rest = (pre ++ [c]) ++ rest := by simp
    rw [hshape]
    split at h
    · rename_i m heq
      rcases ih _ _ _ h with ⟨m2, h2⟩ | hnil
      · exact ⟨m2, h2⟩
      · subst hnil
        simp only [mkdirRec] at h
        cases h
        exact ⟨m, by simpa using heq⟩
    · cases h
    · rename_i heq
      rcases ih _ _ _ h with ⟨m2, h2⟩ | hnil
      · exact ⟨m2, h2⟩
      · subst hnil
        simp only [mkdirRec] at h
        cases h
        refine ⟨now, ?_⟩
        simp only [addOp]
        rw [FS.stat_setEntry]
        simp

/-- A chain of path components below `pre` is clean when every intermediate
path is absent or a directory — exactly when a recursive mkdir can run
through it. -/
def cleanChain (fs : FS) (pre : FPath) : List String → Bool
  | [] => true
  | c :: rest =>
    (match FS.stat fs (pre ++ [c]) with
     | none => true
     | some (FSEntry.dir _) => true
     | some (FSEntry.file _ _) => false) &&
    cleanChain fs (pre ++ [c]) rest

theorem cleanChain_mono (fs fs2 : FS)
    (hch : ∀ q, FS.stat fs2 q = FS.stat fs q ∨ ∃ m, FS.stat fs2 q = some (FSEntry.dir m)) :
    ∀ (comps : List String) (pre : FPath),
      cleanChain fs pre comps = true → cleanChain fs2 pre comps = true := by
  intro comps
  induction comps with
  | nil => intro pre _; rfl
  | cons c rest ih =>
    intro pre h
    simp only [cleanChain, Bool.and_eq_true] at h ⊢
    refine ⟨?_, ih _ h.2⟩
    rcases hch (pre ++ [c]) with h2 | ⟨m, h2⟩
    · rw [h2]; exact h.1
    · rw [h2]

theorem mkdirRec_ok_of_clean (now : Nat) (comps : List String) :
    ∀ (st : SyncSt) (pre : FPath),
      cleanChain st.fs pre comps = true →
      ∃ st', mkdirRec now st pre comps = .ok st' := by
  induction comps with
  | nil => exact fun st pre _ => ⟨st, rfl⟩
  | cons c rest ih =>
    intro st pre h
    simp only [cleanChain, Bool.and_eq_true] at h
    cases hstat : FS.stat st.fs (pre ++ [c]) with
    | none =>
      have hch : ∀ q,
          FS.stat (FS.setEntry st.fs (pre ++ [c]) (FSEntry.dir now)) q = FS.stat st.fs q ∨
          ∃ m, FS.stat (FS.setEntry st.fs (pre ++ [c]) (FSEntry.dir now)) q = some (FSEntry.dir m) := by
        intro q
        rw [FS.stat_setEntry]
        by_cases hq : pre ++ [c] = q
        · exact Or.inr ⟨now, by simp [hq]⟩
        · exact Or.inl (by simp [hq])
      have hclean2 := cleanChain_mono st.fs
        (FS.setEntry st.fs (pre ++ [c]) (FSEntry.dir now)) hch rest (pre ++ [c]) h.2
      rcases ih (addOp { st with fs := FS.setEntry st.fs (pre ++ [c]) (FSEntry.dir now) }
          (FSOp.mkdir (pre ++ [c]))) (pre ++ [c]) (by simpa [addOp] using hclean2) with ⟨st', h'⟩
      exact ⟨st', by simp only [mkdirRec, hstat]; exact h'⟩
    | some e =>
      cases e with
      | dir m =>
        rcases ih st (pre ++ [c]) h.2 with ⟨st', h'⟩
        exact ⟨st', by simp only [mkdirRec, hstat]; exact h'⟩
      | file content m =>
        rw [hstat] at h
        simp at h

theorem ensureParent_preserves (now : Nat) (st : SyncSt) (targetPath : FPath)
    (st' : SyncSt) (h : ensureParentDirectory now st targetPath = .ok st') :
    ∀ q e, FS.stat st.fs q = some e → FS.stat st'.fs q = some e := by
  intro q e hq
  unfold ensureParentDirectory at h
  split at h
  · cases h; exact hq
  · exact mkdirRec_preserves now targetPath.dropLast st [] st' h q e hq

theorem ensureParent_changes (now : Nat) (st : SyncSt) (targetPath : FPath)
    (st' : SyncSt) (h : ensureParentDirectory now st targetPath = .ok st') :
    ∀ q, FS.stat st'.fs q = FS.stat st.fs q ∨
      (FS.stat st.fs q = none ∧ FS.stat st'.fs q = some (FSEntry.dir now)) := by
  intro q
  unfold ensureParentDirectory at h
  split at h
  · cases h; exact Or.inl rfl
  · exact mkdirRec_changes now targetPath.dropLast st [] st' h q

theorem ensureParent_trace (now : Nat) (st : SyncSt) (targetPath : FPath)
    (st' : SyncSt) (h : ensureParentDirectory now st targetPath = .ok st') :
    ∃ l, st'.ops = st.ops ++ l ∧ (∀ o ∈ l, ∃ p, o = FSOp.mkdir p) ∧
      st'.notices = st.notices ∧ st'.logs = st.logs := by
  unfold ensureParentDirectory at h
  split at h
  · cases h; exact ⟨[], by simp⟩
  · exact mkdirRec_trace now targetPath.dropLast st [] st' h

theorem ensureParent_parent_dir (now : Nat) (st : SyncSt) (targetPath : FPath)
    (st' : SyncSt) (h : ensureParentDirectory now st targetPath = .ok st')
    (hne : targetPath.dropLast ≠ []) :
    ∃ m, FS.stat st'.fs targetPath.dropLast = some (FSEntry.dir m) := by
  unfold ensureParentDirectory at h
  split at h
  · rename_i m heq
    cases h
    exact ⟨m, heq⟩
  · rcases mkdirRec_ensures now targetPath.dropLast st [] st' h with h2 | h2
    · simpa using h2
    · exact absurd h2 hne

theorem ensureParent_noop (now : Nat) (st : SyncSt) (targetPath : FPath)
    (h : targetPath.dropLast = [] ∨
      ∃ m, FS.stat st.fs targetPath.dropLast = some (FSEntry.dir m)) :
    ensureParentDirectory now st targetPath = .ok st := by
  unfold ensureParentDirectory
  rcases h with h | ⟨m, h⟩
  · rw [h]
    cases hstat : FS.stat st.fs [] with
    | none => simp only [safeStat, hstat]; rfl
    | some e =>
      cases e with
      | dir m => simp only [safeStat, hstat]
      | file content m => simp only [safeStat, hstat]; rfl
  · simp only [safeStat, h]

theorem ensureParent_ok_of_clean (now : Nat) (st : SyncSt) (targetPath : FPath)
    (hc : cleanChain st.fs [] targetPath.dropLast = true) :
    ∃ st', ensureParentDirectory now st targetPath = .ok st' := by
  unfold ensureParentDirectory
  cases hstat : FS.stat st.fs targetPath.dropLast with
  | none =>
    simp only [safeStat, hstat]
    exact mkdirRec_ok_of_clean now targetPath.dropLast st [] hc
  | some e =>
    cases e with
    | dir m => exact ⟨st, by simp only [safeStat, hstat]⟩
    | file content m =>
      simp only [safeStat, hstat]
      exact mkdirRec_ok_of_clean now targetPath.dropLast st [] hc

theorem fsWriteFile_eq_ok (st : SyncSt) (p : FPath) (content : List Nat) (now : Nat)
    (h : ∀ m, FS.stat st.fs p ≠ some (FSEntry.dir m)) :
    fsWriteFile st p content now =
      .ok (addOp { st with fs := FS.setEntry st.fs p (FSEntry.file content now) }
            (FSOp.writeFile p)) := by
  unfold fsWriteFile
  cases hstat : FS.stat st.fs p with
  | none => rfl
  | some e =>
    cases e with
    | dir m => exact absurd hstat (h m)
    | file content2 m => rfl

theorem fsWriteFile_ok_inv (st : SyncSt) (p : FPath) (content : List Nat) (now : Nat)
    (st' : SyncSt) (h : fsWriteFile st p content now = .ok st') :
    st' = addOp { st with fs := FS.setEntry st.fs p (FSEntry.file content now) }
            (FSOp.writeFile p) ∧
    ∀ m, FS.stat st.fs p ≠ some (FSEntry.dir m) := by
  unfold fsWriteFile at h
  split at h
  · cases h
  · rename_i hne
    cases h
    refine ⟨rfl, ?_⟩
    intro m hm
    exact hne m hm

/-- A source file is "fresh" in a target filesystem when something sits at
its target path whose mtime is at least the source mtime — exactly the
condition under which the reconciliation loop leaves it alone. -/
def freshEnough (fs : FS) (targetDir : FPath) (f : TFile) : Prop :=
  ∃ e, FS.stat fs (targetDir ++ f.path) = some e ∧ f.mtime ≤ FSEntry.mtime e

theorem reconStep_noop (v : Vault) (targetDir : FPath) (now : Nat) (r : ReconSt)
    (f : TFile) (hfresh : freshEnough r.st.fs targetDir f) :
    reconStep v targetDir now r f = .ok { r with fileCount := r.fileCount + 1 } := by
  rcases hfresh with ⟨e, he, hm⟩
  simp only [reconStep, safeStat, he]
  simp [Nat.not_lt.mpr hm]

theorem reconStep_counts (v : Vault) (targetDir : FPath) (now : Nat) (r r' : ReconSt)
    (h : reconStep v targetDir now r f = .ok r') :
    r'.fileCount = r.fileCount + 1 ∧
    r'.created + r'.updated ≤ r.created + r.updated + 1 ∧
    r'.st.notices = r.st.notices ∧ r'.st.logs = r.st.logs := by
  simp only [reconStep, safeStat] at h
  split at h
  · split at h
    · cases h
    · rename_i stA hens
      split at h
      · cases h
      · rename_i stB hwrite
        cases h
        rcases ensureParent_trace now r.st _ stA hens with ⟨l, _, _, hn, hl⟩
        rcases fsWriteFile_ok_inv stA _ _ now stB hwrite with ⟨hB, _⟩
        subst hB
        refine ⟨rfl, ?_, ?_, ?_⟩
        · show r.created + 1 + r.updated ≤ r.created + r.updated + 1
          omega
        · simp [addOp, hn]
        · simp [addOp, hl]
  · split at h
    · split at h
      · cases h
      · rename_i stB hwrite
        cases h
        rcases fsWriteFile_ok_inv r.st _ _ now stB hwrite with ⟨hB, _⟩
        subst hB
        refine ⟨rfl, ?_, ?_, ?_⟩
        · show r.created + (r.updated + 1) ≤ r.created + r.updated + 1
          omega
        · simp [addOp]
        · simp [addOp]
    · cases h
      exact ⟨rfl, Nat.le_succ _, rfl, rfl⟩

theorem reconStep_changes (v : Vault) (targetDir : FPath) (now : Nat) (r r' : ReconSt)
    (h : reconStep v targetDir now r f = .ok r') :
    ∀ q, FS.stat r'.st.fs q = FS.stat r.st.fs q ∨
      ∃ e, FS.stat r'.st.fs q = some e ∧ FSEntry.mtime e = now := by
  intro q
  simp only [reconStep, safeStat] at h
  split at h
  · split at h
    · cases h
    · rename_i stA hens
      split at h
      · cases h
      · rename_i stB hwrite
        cases h
        rcases fsWriteFile_ok_inv stA _ _ now stB hwrite with ⟨hB, _⟩
        subst hB
        simp only [addOp]
        rw [FS.stat_setEntry]
        by_cases hq : targetDir ++ f.path = q
        · refine Or.inr ⟨FSEntry.file (v.readBinary f.path) now, ?_, rfl⟩
          simp [hq]
        · simp only [if_neg hq]
          rcases ensureParent_changes now r.st _ stA hens q with h2 | ⟨_, h3⟩
          · exact Or.inl h2
          · exact Or.inr ⟨_, h3, rfl⟩
  · split at h
    · split at h
      · cases h
      · rename_i stB hwrite
        cases h
        rcases fsWriteFile_ok_inv r.st _ _ now stB hwrite with ⟨hB, _⟩
        subst hB
        simp only [addOp]
        rw [FS.stat_setEntry]
        by_cases hq : targetDir ++ f.path = q
        · refine Or.inr ⟨FSEntry.file (v.readBinary f.path) now, ?_, rfl⟩
          simp [hq]
        · exact Or.inl (by simp [hq])
    · cases h
      exact Or.inl rfl

theorem reconStep_preserves_dir (v : Vault) (targetDir : FPath) (now : Nat)
    (r r' : ReconSt) (h : reconStep v targetDir now r f = .ok r') (q : FPath) (m : Nat)
    (hq : FS.stat r.st.fs q = some (FSEntry.dir m)) :
    FS.stat r'.st.fs q = some (FSEntry.dir m) := by
  simp only [reconStep, safeStat] at h
  split at h
  · split at h
    · cases h
    · rename_i stA hens
      split at h
      · cases h
      · rename_i stB hwrite
        cases h
        have hA : FS.stat stA.fs q = some (FSEntry.dir m) :=
          ensureParent_preserves now r.st _ stA hens q _ hq
        rcases fsWriteFile_ok_inv stA _ _ now stB hwrite with ⟨hB, hnd⟩
        subst hB
        simp only [addOp]
        rw [FS.stat_setEntry]
        by_cases hqt : targetDir ++ f.path = q
        · rw [hqt] at hnd
          exact absurd hA (hnd m)
        · simp [hqt, hA]
  · split at h
    · split at h
      · cases h
      · rename_i stB hwrite
        cases h
        rcases fsWriteFile_ok_inv r.st _ _ now stB hwrite with ⟨hB, hnd⟩
        subst hB
        simp only [addOp]
        rw [FS.stat_setEntry]
        by_cases hqt : targetDir ++ f.path = q
        · rw [hqt] at hnd
          exact absurd hq (hnd m)
        · simp [hqt, hq]
    · cases h
      exact hq

theorem reconStep_fresh_self (v : Vault) (targetDir : FPath) (now : Nat)
    (r r' : ReconSt) (f : TFile) (hmt : f.mtime ≤ now)
    (h : reconStep v targetDir now r f = .ok r') :
    freshEnough r'.st.fs targetDir f := by
  simp only [reconStep, safeStat] at h
  split at h
  · split at h
    · cases h
    · rename_i stA hens
      split at h
      · cases h
      · rename_i stB hwrite
        cases h
        rcases fsWriteFile_ok_inv stA _ _ now stB hwrite with ⟨hB, _⟩
        subst hB
        refine ⟨FSEntry.file (v.readBinary f.path) now, ?_, hmt⟩
        simp only [addOp]
        rw [FS.stat_setEntry]
        simp
  · rename_i e heq
    split at h
    · split at h
      · cases h
      · rename_i stB hwrite
        cases h
        rcases fsWriteFile_ok_inv r.st _ _ now stB hwrite with ⟨hB, _⟩
        subst hB
        refine ⟨FSEntry.file (v.readBinary f.path) now, ?_, hmt⟩
        simp only [addOp]
        rw [FS.stat_setEntry]
        simp
    · rename_i hstale
      cases h
      exact ⟨e, heq, Nat.not_lt.mp hstale⟩

theorem reconStep_fresh_pres (v : Vault) (targetDir : FPath) (now : Nat)
    (r r' : ReconSt) (f g : TFile) (hg : g.mtime ≤ now)
    (hfresh : freshEnough r.st.fs targetDir g)
    (h : reconStep v targetDir now r f = .ok r') :
    freshEnough r'.st.fs targetDir g := by
  rcases hfresh with ⟨e, he, hm⟩
  rcases reconStep_changes v targetDir now r r' h (targetDir ++ g.path) with h2 | ⟨e2, h2, h3⟩
  · exact ⟨e, by rw [h2]; exact he, hm⟩
  · exact ⟨e2, h2, by omega⟩

theorem reconLoop_counts (v : Vault) (targetDir : FPath) (now : Nat) (l : List TFile) :
    ∀ (r r' : ReconSt), reconLoop v targetDir now r l = .ok r' →
      r'.fileCount = r.fileCount + l.length ∧
      r'.created + r'.updated ≤ r.created + r.updated + l.length ∧
      r'.st.notices = r.st.notices ∧ r'.st.logs = r.st.logs := by
  induction l with
  | nil =>
    intro r r' h
    cases h
    exact ⟨rfl, by omega, rfl, rfl⟩
  | cons f rest ih =>
    intro r r' h
    simp only [reconLoop] at h
    split at h
    · cases h
    · rename_i r2 hstep
      rcases reconStep_counts v targetDir now r r2 hstep with ⟨h1, h2, h3, h4⟩
      rcases ih r2 r' h with ⟨g1, g2, g3, g4⟩
      have hlen : (f :: rest).length = rest.length + 1 := rfl
      refine ⟨by omega, by omega, ?_, ?_⟩
      · rw [g3, h3]
      · rw [g4, h4]

theorem reconLoop_preserves_dir (v : Vault) (targetDir : FPath) (now : Nat)
    (l : List TFile) :
    ∀ (r r' : ReconSt), reconLoop v targetDir now r l = .ok r' →
      ∀ q m, FS.stat r.st.fs q = some (FSEntry.dir m) →
        FS.stat r'.st.fs q = some (FSEntry.dir m) := by
  induction l with
  | nil =>
    intro r r' h q m hq
    cases h
    exact hq
  | cons f rest ih =>
    intro r r' h q m hq
    simp only [reconLoop] at h
    split at h
    · cases h
    · rename_i r2 hstep
      exact ih r2 r' h q m (reconStep_preserves_dir v targetDir now r r2 hstep q m hq)

theorem reconLoop_fresh_pres (v : Vault) (targetDir : FPath) (now : Nat)
    (l : List TFile) :
    ∀ (r r' : ReconSt) (g : TFile), g.mtime ≤ now →
      freshEnough r.st.fs targetDir g →
      reconLoop v targetDir now r l = .ok r' →
      freshEnough r'.st.fs targetDir g := by
  induction l with
  | nil =>
    intro r r' g _ hfresh h
    cases h
    exact hfresh
  | cons f rest ih =>
    intro r r' g hg hfresh h
    simp only [reconLoop] at h
    split at h
    · cases h
    · rename_i r2 hstep
      exact ih r2 r' g hg (reconStep_fresh_pres v targetDir now r r2 f g hg hfresh hstep) h

theorem reconLoop_fresh_all (v : Vault) (targetDir : FPath) (now : Nat)
    (l : List TFile) :
    ∀ (r r' : ReconSt), (∀ f ∈ l, f.mtime ≤ now) →
      reconLoop v targetDir now r l = .ok r' →
      ∀ f ∈ l, freshEnough r'.st.fs targetDir f := by
  induction l with
  | nil =>
    intro r r' _ _ f hf
    cases hf
  | cons f0 rest ih =>
    intro r r' hm h f hf
    simp only [reconLoop] at h
    split at h
    · cases h
    · rename_i r2 hstep
      rcases List.mem_cons.mp hf with hf | hf
      · subst hf
        have hfr := reconStep_fresh_self v targetDir now r r2 f (hm f (by simp)) hstep
        exact reconLoop_fresh_pres v targetDir now rest r2 r' f (hm f (by simp)) hfr h
      · exact ih r2 r' (fun g hg => hm g (List.mem_cons_of_mem f0 hg)) h f hf

theorem reconLoop_noop (v : Vault) (targetDir : FPath) (now : Nat) (l : List TFile) :
    ∀ (r : ReconSt), (∀ f ∈ l, freshEnough r.st.fs targetDir f) →
      reconLoop v targetDir now r l = .ok { r with fileCount := r.fileCount + l.length } := by
  induction l with
  | nil => intro r _; simp [reconLoop]
  | cons f rest ih =>
    intro r hfresh
    have hstep := reconStep_noop v targetDir now r f (hfresh f (by simp))
    simp only [reconLoop, hstep]
    have hrest : ∀ g ∈ rest, freshEnough ({ r with fileCount := r.fileCount + 1 } : ReconSt).st.fs targetDir g :=
      fun g hg => hfresh g (List.mem_cons_of_mem f hg)
    rw [ih { r with fileCount := r.fileCount + 1 } hrest]
    have : r.fileCount + 1 + rest.length = r.fileCount + (rest.length + 1) := by omega
    simp [this]

@[simp] theorem addLog_fs (st : SyncSt) (m : String) : (addLog st m).fs = st.fs := rfl

@[simp] theorem addLog_ops (st : SyncSt) (m : String) : (addLog st m).ops = st.ops := rfl

@[simp] theorem addLog_notices (st : SyncSt) (m : String) : (addLog st m).notices = st.notices := rfl

@[simp] theorem addNotice_fs (st : SyncSt) (m : String) : (addNotice st m).fs = st.fs := rfl

@[simp] theorem addNotice_ops (st : SyncSt) (m : String) : (addNotice st m).ops = st.ops := rfl

@[simp] theorem addNotice_notices (st : SyncSt) (m : String) :
    (addNotice st m).notices = st.notices ++ [m] := rfl

@[simp] theorem addOp_fs (st : SyncSt) (o : FSOp) : (addOp st o).fs = st.fs := rfl

@[simp] theorem addOp_notices (st : SyncSt) (o : FSOp) : (addOp st o).notices = st.notices := rfl

@[simp] theorem addOp_logs (st : SyncSt) (o : FSOp) : (addOp st o).logs = st.logs := rfl

theorem ensureTargetPath_ok_inv (now : Nat) (st : SyncSt) (root filePath : FPath)
    (tp : FPath) (st2 : SyncSt) (h : ensureTargetPath now st root filePath = .ok (tp, st2)) :
    tp = root ++ filePath ∧ ensureParentDirectory now st (root ++ filePath) = .ok st2 := by
  unfold ensureTargetPath at h
  split at h
  · cases h
  · rename_i st3 hE
    cases h
    exact ⟨rfl, hE⟩

theorem ensureTargetPath_eq_ok (now : Nat) (st : SyncSt) (root filePath : FPath)
    (st2 : SyncSt) (h : ensureParentDirectory now st (root ++ filePath) = .ok st2) :
    ensureTargetPath now st root filePath = .ok (root ++ filePath, st2) := by
  unfold ensureTargetPath
  rw [h]

/-- C1: for every event kind (created, modified, deleted, renamed) and for
the reconciliation pass, if the resolved target root does not exist or is
not a directory when the operation starts, the operation performs no
filesystem write (the operation trace and the target filesystem are
unchanged, and no notice is emitted) and returns normally with `Except.ok`
rather than raising. -/
theorem unavailable_target_noop (v : Vault) (s : CopyExternalPluginSettings)
    (root : FPath) (now : Nat) (st : SyncSt) (file : TAbstractFile) (oldPath : FPath)
    (hGate : targetPathExists st.fs root = false) :
    (∃ st2, syncFileCreate v s root now st file = .ok st2 ∧
      st2.fs = st.fs ∧ st2.ops = st.ops ∧ st2.notices = st.notices) ∧
    (∃ st2, syncFileModify v s root now st file = .ok st2 ∧
      st2.fs = st.fs ∧ st2.ops = st.ops ∧ st2.notices = st.notices) ∧
    (∃ st2, syncFileDelete s root st file = .ok st2 ∧
      st2.fs = st.fs ∧ st2.ops = st.ops ∧ st2.notices = st.notices) ∧
    (∃ st2, syncFileRename s root now st file oldPath = .ok st2 ∧
      st2.fs = st.fs ∧ st2.ops = st.ops ∧ st2.notices = st.notices) ∧
    (∃ st2, syncExistingFiles v s root now st = .ok st2 ∧
      st2.fs = st.fs ∧ st2.ops = st.ops ∧ st2.notices = st.notices) := by
  refine ⟨?_, ?_, ?_, ?_, ?_⟩
  · exact ⟨addLog (addLog st ("Syncing new file: " ++ pathText file.path)) (unavailableMsg s),
      by simp [syncFileCreate, hGate], rfl, rfl, rfl⟩
  · exact ⟨addLog (addLog st ("Synching modified file: " ++ pathText file.path)) (unavailableMsg s),
      by simp [syncFileModify, hGate], rfl, rfl, rfl⟩
  · exact ⟨addLog (addLog st ("Syncing deletion of file " ++ pathText file.path)) (unavailableMsg s),
      by simp [syncFileDelete, hGate], rfl, rfl, rfl⟩
  · exact ⟨addLog (addLog st ("Syncing file rename from " ++ pathText oldPath ++ " to " ++
        pathText file.path)) (unavailableMsg s),
      by simp [syncFileRename, hGate], rfl, rfl, rfl⟩
  · exact ⟨addLog st (unavailableMsg s),
      by simp [syncExistingFiles, hGate], rfl, rfl, rfl⟩

/-- C2: during the reconciliation pass, for every source file whose target
path exists (here: as a file with mtime `m`), the target is overwritten — a
`writeFile` of the target path is recorded — if and only if the target mtime
is strictly less than the source mtime; in particular, when the two mtimes
are equal the step performs no write and only increments the file counter. -/
theorem recon_staleness_iff (v : Vault) (targetDir : FPath) (now : Nat)
    (r : ReconSt) (f : TFile) (c : List Nat) (m : Nat)
    (h : safeStat r.st.fs (targetDir ++ f.path) = some (FSEntry.file c m)) :
    ((∃ r2, reconStep v targetDir now r f = .ok r2 ∧
        r2.st.ops = r.st.ops ++ [FSOp.writeFile (targetDir ++ f.path)]) ↔ m < f.mtime) ∧
    (m = f.mtime →
      reconStep v targetDir now r f = .ok { r with fileCount := r.fileCount + 1 }) := by
  simp only [safeStat] at h
  have hnd : ∀ m2, FS.stat r.st.fs (targetDir ++ f.path) ≠ some (FSEntry.dir m2) := by
    intro m2 hm2
    rw [h] at hm2
    cases hm2
  constructor
  · constructor
    · rintro ⟨r2, hstep, hops⟩
      by_contra hlt
      rw [reconStep_noop v targetDir now r f ⟨_, h, Nat.not_lt.mp hlt⟩] at hstep
      cases hstep
      simp at hops
    · intro hlt
      obtain ⟨stB, hwB⟩ : ∃ stB,
          fsWriteFile r.st (targetDir ++ f.path) (v.readBinary f.path) now = .ok stB :=
        ⟨_, fsWriteFile_eq_ok r.st (targetDir ++ f.path) (v.readBinary f.path) now hnd⟩
      have hops : stB.ops = r.st.ops ++ [FSOp.writeFile (targetDir ++ f.path)] := by
        rcases fsWriteFile_ok_inv _ _ _ _ _ hwB with ⟨hB, _⟩
        subst hB
        simp [addOp]
      have hstep : reconStep v targetDir now r f =
          .ok { st := stB, fileCount := r.fileCount + 1, created := r.created, updated := r.updated + 1 } := by
        simp only [reconStep, safeStat, h, FSEntry.mtime]
        rw [if_pos hlt, hwB]
      exact ⟨_, hstep, hops⟩
  · intro heq
    exact reconStep_noop v targetDir now r f ⟨_, h, Nat.le_of_eq heq.symm⟩

/-- A concrete sync state with just the target root directory in place. -/
def stRootOnly : SyncSt :=
  { fs := [(["t"], FSEntry.dir 0)], ops := [], notices := [], logs := [] }

/-- A concrete empty sync state. -/
def stEmpty : SyncSt := { fs := [], ops := [], notices := [], logs := [] }

/-- A trivial concrete vault. -/
def vEmpty : Vault :=
  { files := [], readBinary := fun _ => [], adapterStat := fun _ => none }

/-- A concrete reconciliation state whose target already holds `t/a` with
mtime 3. -/
def rFix : ReconSt :=
  { st := { fs := [(["t"], FSEntry.dir 0), (["t", "a"], FSEntry.file [9] 3)],
            ops := [], notices := [], logs := [] },
    fileCount := 0, created := 0, updated := 0 }

/-- A concrete vault with a single-byte reader. -/
def vFix : Vault :=
  { files := [{ path := ["a"], mtime := 3 }], readBinary := fun _ => [1],
    adapterStat := fun _ => none }

/-- Witness for C1 at a concrete unavailable target. -/
theorem unavailable_target_noop_witness :
    targetPathExists stEmpty.fs ["t"] = false ∧
    ((∃ st2, syncFileCreate vEmpty DEFAULT_SETTINGS ["t"] 0 stEmpty ⟨["a"], "a"⟩ = .ok st2 ∧
      st2.fs = stEmpty.fs ∧ st2.ops = stEmpty.ops ∧ st2.notices = stEmpty.notices) ∧
    (∃ st2, syncFileModify vEmpty DEFAULT_SETTINGS ["t"] 0 stEmpty ⟨["a"], "a"⟩ = .ok st2 ∧
      st2.fs = stEmpty.fs ∧ st2.ops = stEmpty.ops ∧ st2.notices = stEmpty.notices) ∧
    (∃ st2, syncFileDelete DEFAULT_SETTINGS ["t"] stEmpty ⟨["a"], "a"⟩ = .ok st2 ∧
      st2.fs = stEmpty.fs ∧ st2.ops = stEmpty.ops ∧ st2.notices = stEmpty.notices) ∧
    (∃ st2, syncFileRename DEFAULT_SETTINGS ["t"] 0 stEmpty ⟨["a"], "a"⟩ ["o"] = .ok st2 ∧
      st2.fs = stEmpty.fs ∧ st2.ops = stEmpty.ops ∧ st2.notices = stEmpty.notices) ∧
    (∃ st2, syncExistingFiles vEmpty DEFAULT_SETTINGS ["t"] 0 stEmpty = .ok st2 ∧
      st2.fs = stEmpty.fs ∧ st2.ops = stEmpty.ops ∧ st2.notices = stEmpty.notices)) :=
  ⟨by rfl,
   unavailable_target_noop vEmpty DEFAULT_SETTINGS ["t"] 0 stEmpty ⟨["a"], "a"⟩ ["o"]
     (by rfl)⟩

/-- Witness for C2 at equal mtimes (3 = 3): no write occurs. -/
theorem recon_staleness_iff_witness :
    safeStat rFix.st.fs (["t"] ++ ([ "a" ] : FPath)) = some (FSEntry.file [9] 3) ∧
    (((∃ r2, reconStep vFix ["t"] 5 rFix ⟨["a"], 3⟩ = .ok r2 ∧
        r2.st.ops = rFix.st.ops ++ [FSOp.writeFile (["t"] ++ ([ "a" ] : FPath))]) ↔
        (3 : Nat) < 3) ∧
     ((3 : Nat) = 3 →
       reconStep vFix ["t"] 5 rFix ⟨["a"], 3⟩ =
         .ok { rFix with fileCount := rFix.fileCount + 1 })) :=
  ⟨by rfl, recon_staleness_iff vFix ["t"] 5 rFix ⟨["a"], 3⟩ [9] 3 (by rfl)⟩

/-- C3: a Renamed event whose old target path does not exist (or whose
underlying rename otherwise fails) is caught locally by the rename handler:
it logs an error line and emits the failure notice, and the handler returns
`Except.ok` rather than propagating the failure. -/
theorem rename_failure_caught (s : CopyExternalPluginSettings) (root : FPath)
    (now : Nat) (st stE : SyncSt) (file : TAbstractFile) (oldPath : FPath) (e : FsErr)
    (hGate : targetPathExists st.fs root = true)
    (hE : ensureParentDirectory now
        (addLog st ("Syncing file rename from " ++ pathText oldPath ++ " to " ++
          pathText file.path)) (root ++ file.path) = .ok stE)
    (hFail : fsRename stE (root ++ oldPath) (root ++ file.path) = .error e) :
    syncFileRename s root now st file oldPath =
      .ok (addNotice (addLog stE (renameFailMsg (root ++ oldPath) (root ++ file.path)))
            (renameFailMsg (root ++ oldPath) (root ++ file.path))) := by
  simp only [syncFileRename, addLog_fs, hGate, Bool.not_true, Bool.false_eq_true,
    if_false, hE, hFail]

/-- C10: the rename-failure notice is emitted unconditionally, for every
value of the `notifyRename` toggle, while the success notice of the rename
handler is emitted exactly when `notifyRename` is set. -/
theorem rename_notice_gating (s : CopyExternalPluginSettings) (root : FPath)
    (now : Nat) (st stE : SyncSt) (file : TAbstractFile) (oldPath : FPath)
    (hGate : targetPathExists st.fs root = true)
    (hE : ensureParentDirectory now
        (addLog st ("Syncing file rename from " ++ pathText oldPath ++ " to " ++
          pathText file.path)) (root ++ file.path) = .ok stE) :
    (∀ e : FsErr, fsRename stE (root ++ oldPath) (root ++ file.path) = .error e →
      ∃ st2, syncFileRename s root now st file oldPath = .ok st2 ∧
        st2.notices = stE.notices ++
          [renameFailMsg (root ++ oldPath) (root ++ file.path)]) ∧
    (∀ stR, fsRename stE (root ++ oldPath) (root ++ file.path) = .ok stR →
      syncFileRename s root now st file oldPath =
        .ok (if s.notifyRename then
               addNotice stR
                 ("Synced rename file " ++ file.name ++ " (was " ++ pathText oldPath ++ ")")
             else stR)) := by
  constructor
  · intro e hFail
    have hstep : syncFileRename s root now st file oldPath =
        .ok (addNotice (addLog stE (renameFailMsg (root ++ oldPath) (root ++ file.path)))
              (renameFailMsg (root ++ oldPath) (root ++ file.path))) := by
      simp only [syncFileRename, addLog_fs, hGate, Bool.not_true, Bool.false_eq_true,
        if_false, hE, hFail]
    exact ⟨_, hstep, by simp⟩
  · intro stR hRen
    simp only [syncFileRename, addLog_fs, hGate, Bool.not_true, Bool.false_eq_true,
      if_false, hE, hRen]

/-- Witness for C3: renaming `t/o.md` to `t/n.md` with no `t/o.md` in the
mirror returns normally with the failure notice. -/
theorem rename_failure_caught_witness :
    targetPathExists stRootOnly.fs ["t"] = true ∧
    ensureParentDirectory 5
      (addLog stRootOnly ("Syncing file rename from " ++ pathText ["o.md"] ++ " to " ++
        pathText (["n.md"] : FPath))) (["t"] ++ ([ "n.md" ] : FPath)) =
      .ok (addLog stRootOnly ("Syncing file rename from " ++ pathText ["o.md"] ++ " to " ++
        pathText (["n.md"] : FPath))) ∧
    fsRename (addLog stRootOnly ("Syncing file rename from " ++ pathText ["o.md"] ++ " to " ++
        pathText (["n.md"] : FPath))) (["t"] ++ ([ "o.md" ] : FPath)) (["t"] ++ ([ "n.md" ] : FPath)) =
      .error FsErr.enoent ∧
    syncFileRename DEFAULT_SETTINGS ["t"] 5 stRootOnly ⟨["n.md"], "n.md"⟩ ["o.md"] =
      .ok (addNotice
            (addLog (addLog stRootOnly ("Syncing file rename from " ++ pathText ["o.md"] ++
              " to " ++ pathText (["n.md"] : FPath)))
              (renameFailMsg (["t"] ++ ([ "o.md" ] : FPath)) (["t"] ++ ([ "n.md" ] : FPath))))
            (renameFailMsg (["t"] ++ ([ "o.md" ] : FPath)) (["t"] ++ ([ "n.md" ] : FPath)))) :=
  ⟨by rfl, by rfl, by rfl,
   rename_failure_caught DEFAULT_SETTINGS ["t"] 5 stRootOnly _ ⟨["n.md"], "n.md"⟩ ["o.md"]
     FsErr.enoent (by rfl) (by rfl) (by rfl)⟩

/-- Witness for C10 at the same concrete rename event. -/
theorem rename_notice_gating_witness :
    targetPathExists stRootOnly.fs ["t"] = true ∧
    ((∀ e : FsErr, fsRename (addLog stRootOnly ("Syncing file rename from " ++
          pathText ["o.md"] ++ " to " ++ pathText (["n.md"] : FPath)))
          (["t"] ++ ([ "o.md" ] : FPath)) (["t"] ++ ([ "n.md" ] : FPath)) = .error e →
      ∃ st2, syncFileRename DEFAULT_SETTINGS ["t"] 5 stRootOnly ⟨["n.md"], "n.md"⟩ ["o.md"] =
          .ok st2 ∧
        st2.notices = (addLog stRootOnly ("Syncing file rename from " ++
          pathText ["o.md"] ++ " to " ++ pathText (["n.md"] : FPath))).notices ++
          [renameFailMsg (["t"] ++ ([ "o.md" ] : FPath)) (["t"] ++ ([ "n.md" ] : FPath))]) ∧
    (∀ stR, fsRename (addLog stRootOnly ("Syncing file rename from " ++
          pathText ["o.md"] ++ " to " ++ pathText (["n.md"] : FPath)))
          (["t"] ++ ([ "o.md" ] : FPath)) (["t"] ++ ([ "n.md" ] : FPath)) = .ok stR →
      syncFileRename DEFAULT_SETTINGS ["t"] 5 stRootOnly ⟨["n.md"], "n.md"⟩ ["o.md"] =
        .ok (if DEFAULT_SETTINGS.notifyRename then
               addNotice stR ("Synced rename file " ++ "n.md" ++ " (was " ++
                 pathText ["o.md"] ++ ")")
             else stR))) :=
  ⟨by rfl,
   rename_notice_gating DEFAULT_SETTINGS ["t"] 5 stRootOnly _ ⟨["n.md"], "n.md"⟩ ["o.md"]
     (by rfl) (by rfl)⟩

/-- A concrete state whose would-be parent directory exists as a file. -/
def stParentFile : SyncSt :=
  { fs := [(["p"], FSEntry.file [] 0)], ops := [], notices := [], logs := [] }

/-- C7 counterexample: the parent `p` of target path `p/x` exists but is a
file, not a directory; the claim says `ensureParentDirectory` then creates
the parent and never fails because the parent already exists — but the
recursive mkdir fails with EEXIST precisely because `p` already exists. -/
theorem ensure_parent_fails_on_file_parent :
    ensureParentDirectory 1 stParentFile ["p", "x"] = .error FsErr.eexist := by rfl

/-- C7 (amended): `ensureParentDirectory` computes the parent of the target
path (`dropLast`), stats it, and returns the state unchanged when the
parent already exists as a directory — it never fails in that case; when
every member of the parent chain is absent or a directory, it creates the
parent and all missing ancestors while preserving every existing entry.
(When the parent or an ancestor exists as a non-directory, the recursive
create fails and the error propagates — see the counterexample.) -/
theorem ensure_parent_spec (now : Nat) (st : SyncSt) (targetPath : FPath) :
    (∀ m, FS.stat st.fs targetPath.dropLast = some (FSEntry.dir m) →
      ensureParentDirectory now st targetPath = .ok st) ∧
    (cleanChain st.fs [] targetPath.dropLast = true →
      ∃ st2, ensureParentDirectory now st targetPath = .ok st2 ∧
        (targetPath.dropLast ≠ [] →
          ∃ m, FS.stat st2.fs targetPath.dropLast = some (FSEntry.dir m)) ∧
        (∀ q e, FS.stat st.fs q = some e → FS.stat st2.fs q = some e)) := by
  constructor
  · intro m hm
    exact ensureParent_noop now st targetPath (Or.inr ⟨m, hm⟩)
  · intro hclean
    rcases ensureParent_ok_of_clean now st targetPath hclean with ⟨st2, h2⟩
    exact ⟨st2, h2, fun hne => ensureParent_parent_dir now st targetPath st2 h2 hne,
      ensureParent_preserves now st targetPath st2 h2⟩

/-- Witness for the amended C7 at a parent that exists as a directory and at
a clean chain. -/
theorem ensure_parent_spec_witness :
    FS.stat stRootOnly.fs (["t", "x"] : FPath).dropLast = some (FSEntry.dir 0) ∧
    ensureParentDirectory 7 stRootOnly ["t", "x"] = .ok stRootOnly ∧
    cleanChain stRootOnly.fs [] (["t", "x"] : FPath).dropLast = true ∧
    (∃ st2, ensureParentDirectory 7 stRootOnly ["t", "x"] = .ok st2 ∧
      ((["t", "x"] : FPath).dropLast ≠ [] →
        ∃ m, FS.stat st2.fs (["t", "x"] : FPath).dropLast = some (FSEntry.dir m)) ∧
      (∀ q e, FS.stat stRootOnly.fs q = some e → FS.stat st2.fs q = some e)) :=
  ⟨by rfl, (ensure_parent_spec 7 stRootOnly ["t", "x"]).1 0 (by rfl), by rfl,
   (ensure_parent_spec 7 stRootOnly ["t", "x"]).2 (by rfl)⟩

/-- A concrete vault whose adapter reports an unrecognized kind. -/
def vUnknownKind : Vault :=
  { files := [], readBinary := fun _ => [],
    adapterStat := fun _ => some { type := "weird" } }

/-- C6 counterexample: a Created event for `a/b` whose stat kind is
unrecognized still creates the missing parent directory `t/a` in the target
before reaching the kind branch, so the target filesystem is changed. -/
theorem unknown_kind_changes_filesystem :
    syncFileCreate vUnknownKind DEFAULT_SETTINGS ["t"] 5 stRootOnly ⟨["a", "b"], "b"⟩ =
      .ok { fs := [(["t", "a"], FSEntry.dir 5), (["t"], FSEntry.dir 0)],
            ops := [FSOp.mkdir ["t", "a"]], notices := [],
            logs := ["Syncing new file: a/b", "Unknown file type: weird"] } ∧
    [(["t", "a"], FSEntry.dir 5), (["t"], FSEntry.dir 0)] ≠ stRootOnly.fs :=
  ⟨by rfl, by decide⟩

/-- C6 (amended): for a Created event whose source item stats to a kind
other than file or folder, the handler first materializes missing parent
directories of the target path — its only filesystem effect — and then only
logs a warning: the operation trace grows only by mkdirs, no notice is
emitted, and every pre-existing entry is preserved; in particular nothing
is written at the target path itself. -/
theorem unknown_kind_only_parent_mkdirs (v : Vault) (s : CopyExternalPluginSettings)
    (root : FPath) (now : Nat) (st stE : SyncSt) (file : TAbstractFile)
    (hGate : targetPathExists st.fs root = true)
    (hNotFolder : statType (v.adapterStat file.path) ≠ some "folder")
    (hNotFile : statType (v.adapterStat file.path) ≠ some "file")
    (hE : ensureTargetPath now (addLog st ("Syncing new file: " ++ pathText file.path))
        root file.path = .ok (root ++ file.path, stE)) :
    syncFileCreate v s root now st file =
      .ok (addLog stE ("Unknown file type: " ++ statTypeText (v.adapterStat file.path))) ∧
    (∃ l, stE.ops = st.ops ++ l ∧ ∀ o ∈ l, ∃ p, o = FSOp.mkdir p) ∧
    stE.notices = st.notices ∧
    (∀ q e, FS.stat st.fs q = some e → FS.stat stE.fs q = some e) := by
  rcases ensureTargetPath_ok_inv _ _ _ _ _ _ hE with ⟨_, hEP⟩
  refine ⟨?_, ?_, ?_, ?_⟩
  · simp only [syncFileCreate, addLog_fs, hGate, Bool.not_true, Bool.false_eq_true,
      if_false, hE]
    rw [if_neg hNotFolder, if_neg hNotFile]
  · rcases ensureParent_trace now _ _ _ hEP with ⟨l, h1, h2, _, _⟩
    exact ⟨l, by simpa using h1, h2⟩
  · rcases ensureParent_trace now _ _ _ hEP with ⟨_, _, _, hn, _⟩
    simpa using hn
  · intro q e hq
    exact ensureParent_preserves now _ _ _ hEP q e (by simpa using hq)

/-- The state produced by parent materialization in the C6 witness. -/
def stE6 : SyncSt :=
  { fs := [(["t", "a"], FSEntry.dir 5), (["t"], FSEntry.dir 0)],
    ops := [FSOp.mkdir ["t", "a"]], notices := [],
    logs := ["Syncing new file: a/b"] }

/-- Witness for the amended C6 at the concrete unrecognized-kind event. -/
theorem unknown_kind_only_parent_mkdirs_witness :
    targetPathExists stRootOnly.fs ["t"] = true ∧
    statType (vUnknownKind.adapterStat ["a", "b"]) ≠ some "folder" ∧
    statType (vUnknownKind.adapterStat ["a", "b"]) ≠ some "file" ∧
    ensureTargetPath 5 (addLog stRootOnly ("Syncing new file: " ++ pathText ["a", "b"]))
        ["t"] ["a", "b"] = .ok (["t"] ++ (["a", "b"] : FPath), stE6) ∧
    (syncFileCreate vUnknownKind DEFAULT_SETTINGS ["t"] 5 stRootOnly ⟨["a", "b"], "b"⟩ =
      .ok (addLog stE6 ("Unknown file type: " ++
             statTypeText (vUnknownKind.adapterStat ["a", "b"]))) ∧
    (∃ l, stE6.ops = stRootOnly.ops ++ l ∧ ∀ o ∈ l, ∃ p, o = FSOp.mkdir p) ∧
    stE6.notices = stRootOnly.notices ∧
    (∀ q e, FS.stat stRootOnly.fs q = some e → FS.stat stE6.fs q = some e)) :=
  ⟨by rfl, by decide, by decide, by rfl,
   unknown_kind_only_parent_mkdirs vUnknownKind DEFAULT_SETTINGS ["t"] 5 stRootOnly stE6
     ⟨["a", "b"], "b"⟩ (by rfl) (by decide) (by decide) (by rfl)⟩

theorem dollarExpand_no_dollar (m b a : List Char) :
    ∀ rep : List Char, (∀ ch ∈ rep, ch ≠ '$') → dollarExpand m b a rep = rep
  | [], _ => rfl
  | [c], _ => rfl
  | c :: d :: rest2, h => by
    have hc : ¬c = '$' := h c (by simp)
    simp only [dollarExpand, if_neg hc]
    exact congrArg (c :: ·)
      (dollarExpand_no_dollar m b a (d :: rest2)
        (fun ch hch => h ch (List.mem_cons_of_mem c hch)))

theorem replaceOnce_no_dollar (pat rep : List Char) (hrep : ∀ ch ∈ rep, ch ≠ '$') :
    ∀ (input seen : List Char),
      replaceOnceAux pat rep seen input = replaceOnceLit pat rep seen input
  | [], _ => rfl
  | c :: rest, seen => by
    simp only [replaceOnceAux, replaceOnceLit]
    cases hp : List.isPrefixOf pat (c :: rest) with
    | true =>
      simp only [hp, if_true]
      rw [dollarExpand_no_dollar pat seen.reverse (List.drop pat.length (c :: rest)) rep hrep]
    | false =>
      simp only [hp, Bool.false_eq_true, if_false]
      exact replaceOnce_no_dollar pat rep hrep rest (c :: seen)

/-- C8 counterexample: with the environment home value `$$`, the resolver
does not substitute the placeholder by the home value: JS replacement
escaping collapses `$$` to a single dollar, so the result differs from the
literal substitution the claim describes. -/
theorem resolver_dollar_escape :
    expandTargetPath { DEFAULT_SETTINGS with targetDirectory := "$HOME/n" } (some "$$") ≠
      literalReplaceFirst "$HOME/n" "$HOME" "$$" := by
  decide

/-- C8 (amended): the resolver is total — it always returns a string and
raises nothing; with no home value in the environment it returns the
configured string unchanged (the placeholder stays literal); with a home
value containing no dollar character it returns the configured string with
the first occurrence of the placeholder substituted verbatim by the home
value.  (Home values containing `$` undergo JS replacement-escape
expansion — see the counterexample.) -/
theorem resolver_spec (s : CopyExternalPluginSettings) (home : String)
    (hNoDollar : ∀ ch ∈ home.data, ch ≠ '$') :
    expandTargetPath s (some home) = literalReplaceFirst s.targetDirectory "$HOME" home ∧
    ∀ s2 : CopyExternalPluginSettings, expandTargetPath s2 none = s2.targetDirectory := by
  constructor
  · show jsReplaceFirst s.targetDirectory "$HOME" home = _
    unfold jsReplaceFirst literalReplaceFirst
    exact congrArg String.mk
      (replaceOnce_no_dollar ("$HOME").data home.data hNoDollar s.targetDirectory.data [])
  · intro s2
    rfl

/-- Witness for the amended C8 with home `/home/u` (no dollar). -/
theorem resolver_spec_witness :
    (∀ ch ∈ ("/home/u").data, ch ≠ '$') ∧
    (expandTargetPath DEFAULT_SETTINGS (some "/home/u") =
      literalReplaceFirst DEFAULT_SETTINGS.targetDirectory "$HOME" "/home/u" ∧
    ∀ s2 : CopyExternalPluginSettings, expandTargetPath s2 none = s2.targetDirectory) :=
  ⟨by decide, resolver_spec DEFAULT_SETTINGS "/home/u" (by decide)⟩

/-- C9: when the target root is available and the loop over the full file
listing completes, the reconciliation pass emits exactly one notice — after
the listing is exhausted — whose text reports the total file count, the
created count and the updated count; the loop itself emits no per-file
notice, the total equals the length of the listing, and created plus
updated never exceeds the total (the remainder being the files left
untouched). -/
theorem recon_single_summary (v : Vault) (s : CopyExternalPluginSettings)
    (root : FPath) (now : Nat) (st : SyncSt) (r : ReconSt)
    (hGate : targetPathExists st.fs root = true)
    (hLoop : reconLoop v root now
        { st := addLog st "Syncing existing files ...", fileCount := 0, created := 0,
          updated := 0 } v.files = .ok r) :
    syncExistingFiles v s root now st =
      .ok (addNotice (addLog r.st (summaryMessage r.fileCount r.created r.updated))
            (summaryMessage r.fileCount r.created r.updated)) ∧
    r.fileCount = v.files.length ∧
    r.created + r.updated ≤ r.fileCount ∧
    r.st.notices = st.notices := by
  have hc := reconLoop_counts v root now v.files _ r hLoop
  have h1 := hc.1
  have h2 := hc.2.1
  have h3 := hc.2.2.1
  simp only [addLog_notices] at h3
  refine ⟨?_, ?_, ?_, h3⟩
  · simp only [syncExistingFiles, addLog_fs, hGate, Bool.not_true, Bool.false_eq_true,
      if_false, hLoop]
  · simpa using h1
  · simp only at h1 h2
    omega

/-- C5: with the target root available, a reconciliation pass that completed
at clock `now` (with no source mtime in the future of `now`) makes the
target up to date: running the pass again performs zero creates and zero
updates — the second run leaves the filesystem and the operation trace
untouched and its single summary notice reports 0 created, 0 updated. -/
theorem recon_convergence (v : Vault) (s : CopyExternalPluginSettings) (root : FPath)
    (now now2 : Nat) (st st1 : SyncSt)
    (hGate : targetPathExists st.fs root = true)
    (hclock : ∀ f ∈ v.files, f.mtime ≤ now)
    (h1 : syncExistingFiles v s root now st = .ok st1) :
    ∃ st2, syncExistingFiles v s root now2 st1 = .ok st2 ∧
      st2.fs = st1.fs ∧ st2.ops = st1.ops ∧
      st2.notices = st1.notices ++ [summaryMessage v.files.length 0 0] := by
  simp only [syncExistingFiles, addLog_fs, hGate, Bool.not_true, Bool.false_eq_true,
    if_false] at h1
  split at h1
  · cases h1
  · rename_i r hLoop
    cases h1
    rcases (targetPathExists_true_iff st.fs root).mp hGate with ⟨mr, hroot⟩
    have hrootr : FS.stat r.st.fs root = some (FSEntry.dir mr) :=
      reconLoop_preserves_dir v root now v.files _ r hLoop root mr hroot
    have hGate2 : targetPathExists r.st.fs root = true :=
      (targetPathExists_true_iff _ _).mpr ⟨mr, hrootr⟩
    have hfresh := reconLoop_fresh_all v root now v.files _ r hclock hLoop
    have hLoop2 := reconLoop_noop v root now2 v.files
      { st := addLog (addNotice (addLog r.st (summaryMessage r.fileCount r.created r.updated))
                (summaryMessage r.fileCount r.created r.updated)) "Syncing existing files ...",
        fileCount := 0, created := 0, updated := 0 }
      (fun f hf => hfresh f hf)
    simp only [Nat.zero_add] at hLoop2
    refine ⟨addNotice (addLog (addLog (addNotice (addLog r.st
        (summaryMessage r.fileCount r.created r.updated))
        (summaryMessage r.fileCount r.created r.updated)) "Syncing existing files ...")
        (summaryMessage v.files.length 0 0)) (summaryMessage v.files.length 0 0),
      ?_, rfl, rfl, by simp⟩
    simp only [syncExistingFiles, addNotice_fs, addLog_fs, hGate2, Bool.not_true,
      Bool.false_eq_true, if_false, hLoop2]

/-- The loop state after the concrete first reconciliation pass. -/
def rW : ReconSt :=
  { st := { fs := [(["t", "a"], FSEntry.file [1] 5), (["t"], FSEntry.dir 0)],
            ops := [FSOp.writeFile ["t", "a"]], notices := [],
            logs := ["Syncing existing files ..."] },
    fileCount := 1, created := 1, updated := 0 }

/-- The sync state after the concrete first reconciliation pass. -/
def st1W : SyncSt :=
  { fs := [(["t", "a"], FSEntry.file [1] 5), (["t"], FSEntry.dir 0)],
    ops := [FSOp.writeFile ["t", "a"]],
    notices := ["Synced 1 files; 1 created, 0 updated."],
    logs := ["Syncing existing files ...", "Synced 1 files; 1 created, 0 updated."] }

/-- Witness for C9 at a one-file vault: one summary notice, 1 created. -/
theorem recon_single_summary_witness :
    targetPathExists stRootOnly.fs ["t"] = true ∧
    reconLoop vFix ["t"] 5
      { st := addLog stRootOnly "Syncing existing files ...",
        fileCount := 0, created := 0, updated := 0 } vFix.files = .ok rW ∧
    (syncExistingFiles vFix DEFAULT_SETTINGS ["t"] 5 stRootOnly =
      .ok (addNotice (addLog rW.st (summaryMessage rW.fileCount rW.created rW.updated))
            (summaryMessage rW.fileCount rW.created rW.updated)) ∧
    rW.fileCount = vFix.files.length ∧
    rW.created + rW.updated ≤ rW.fileCount ∧
    rW.st.notices = stRootOnly.notices) :=
  ⟨by rfl, by rfl,
   recon_single_summary vFix DEFAULT_SETTINGS ["t"] 5 stRootOnly rW (by rfl) (by rfl)⟩

/-- Witness for C5: the second pass over the one-file vault creates and
updates nothing. -/
theorem recon_convergence_witness :
    targetPathExists stRootOnly.fs ["t"] = true ∧
    (∀ f ∈ vFix.files, f.mtime ≤ 5) ∧
    syncExistingFiles vFix DEFAULT_SETTINGS ["t"] 5 stRootOnly = .ok st1W ∧
    (∃ st2, syncExistingFiles vFix DEFAULT_SETTINGS ["t"] 9 st1W = .ok st2 ∧
      st2.fs = st1W.fs ∧ st2.ops = st1W.ops ∧
      st2.notices = st1W.notices ++ [summaryMessage vFix.files.length 0 0]) :=
  ⟨by rfl, by decide, by rfl,
   recon_convergence vFix DEFAULT_SETTINGS ["t"] 5 9 stRootOnly st1W (by rfl) (by decide)
     (by rfl)⟩

@[simp] theorem ite_addNotice_fs (c : Prop) [Decidable c] (x : SyncSt) (m : String) :
    (if c then addNotice x m else x).fs = x.fs := by
  by_cases h : c <;> simp [h]

theorem syncFileCreate_file_unfold (v : Vault) (s : CopyExternalPluginSettings)
    (root : FPath) (now : Nat) (st : SyncSt) (file : TAbstractFile)
    (hGate : targetPathExists st.fs root = true)
    (hType : statType (v.adapterStat file.path) = some "file") :
    syncFileCreate v s root now st file =
      match ensureTargetPath now (addLog st ("Syncing new file: " ++ pathText file.path))
          root file.path with
      | .error e => .error e
      | .ok (targetPath, st2) =>
        match fsWriteFile st2 targetPath (v.readBinary file.path) now with
        | .error e => .error e
        | .ok st3 =>
          .ok (if s.notifyCreate then addNotice st3 ("Synced new file " ++ file.name)
               else st3) := by
  have hff : (statType (v.adapterStat file.path) = some "folder") = False := by
    simp [hType]
  have hft : (statType (v.adapterStat file.path) = some "file") = True := by
    simp [hType]
  simp only [syncFileCreate, addLog_fs, hGate, Bool.not_true, Bool.false_eq_true, if_false,
    hff, hft, if_true]


/-- C4: replaying a Created(file) event with an available target root is
idempotent: if the first application succeeded, the second application
raises no error, and after each application the target file holds exactly
the source content (re-stamped with the write clock). -/
theorem create_idempotent (v : Vault) (s : CopyExternalPluginSettings) (root : FPath)
    (now now2 : Nat) (st st1 : SyncSt) (file : TAbstractFile)
    (hGate : targetPathExists st.fs root = true)
    (hType : statType (v.adapterStat file.path) = some "file")
    (h1 : syncFileCreate v s root now st file = .ok st1) :
    ∃ st2, syncFileCreate v s root now2 st1 file = .ok st2 ∧
      FS.stat st2.fs (root ++ file.path) =
        some (FSEntry.file (v.readBinary file.path) now2) ∧
      FS.stat st1.fs (root ++ file.path) =
        some (FSEntry.file (v.readBinary file.path) now) := by
  rw [syncFileCreate_file_unfold v s root now st file hGate hType] at h1
  cases hET : ensureTargetPath now (addLog st ("Syncing new file: " ++ pathText file.path))
      root file.path with
  | error e =>
    rw [hET] at h1
    simp at h1
  | ok pr =>
    obtain ⟨tp, stE⟩ := pr
    rw [hET] at h1
    simp only at h1
    rcases ensureTargetPath_ok_inv _ _ _ _ _ _ hET with ⟨htp, hEP⟩
    subst htp
    cases hW : fsWriteFile stE (root ++ file.path) (v.readBinary file.path) now with
    | error e =>
      rw [hW] at h1
      simp at h1
    | ok stW =>
      rw [hW] at h1
      simp only at h1
      injection h1 with hst1
      rcases fsWriteFile_ok_inv _ _ _ _ _ hW with ⟨hWdef, hnd⟩
      have hfsW : stW.fs = FS.setEntry stE.fs (root ++ file.path)
          (FSEntry.file (v.readBinary file.path) now) := by
        rw [hWdef]
        rfl
      have hfs1 : st1.fs = stW.fs := by
        rw [← hst1, ite_addNotice_fs]
      rcases (targetPathExists_true_iff st.fs root).mp hGate with ⟨mr, hroot⟩
      have hrootE : FS.stat stE.fs root = some (FSEntry.dir mr) :=
        ensureParent_preserves now _ _ _ hEP root _ hroot
      have hne : ¬(root ++ file.path) = root := by
        intro hh
        exact hnd mr (by rw [hh]; exact hrootE)
      have h3 : FS.stat st1.fs (root ++ file.path) =
          some (FSEntry.file (v.readBinary file.path) now) := by
        rw [hfs1, hfsW, FS.stat_setEntry]
        simp
      have hroot1 : FS.stat st1.fs root = some (FSEntry.dir mr) := by
        rw [hfs1, hfsW, FS.stat_setEntry, if_neg hne]
        exact hrootE
      have hGate2 : targetPathExists st1.fs root = true :=
        (targetPathExists_true_iff _ root).mpr ⟨mr, hroot1⟩
      have htpnil : (root ++ file.path) ≠ [] := by
        intro hh
        apply hne
        rw [hh]
        rcases List.append_eq_nil.mp hh with ⟨hr, _⟩
        rw [hr]
      have hpar : (root ++ file.path).dropLast = [] ∨
          ∃ m2, FS.stat st1.fs (root ++ file.path).dropLast = some (FSEntry.dir m2) := by
        by_cases hparnil : (root ++ file.path).dropLast = []
        · exact Or.inl hparnil
        · right
          rcases ensureParent_parent_dir now _ _ _ hEP hparnil with ⟨m2, hm2⟩
          refine ⟨m2, ?_⟩
          have htpne : ¬(root ++ file.path) = (root ++ file.path).dropLast := by
            intro hh
            have hlen := congrArg List.length hh
            rw [List.length_dropLast] at hlen
            have hpos : 0 < (root ++ file.path).length := List.length_pos.mpr htpnil
            omega
          rw [hfs1, hfsW, FS.stat_setEntry, if_neg htpne]
          exact hm2
      have hE2 : ensureParentDirectory now2
          (addLog st1 ("Syncing new file: " ++ pathText file.path)) (root ++ file.path) =
          .ok (addLog st1 ("Syncing new file: " ++ pathText file.path)) :=
        ensureParent_noop now2 _ _ hpar
      have hET2 := ensureTargetPath_eq_ok _ _ _ _ _ hE2
      have hnd2 : ∀ m2, FS.stat
          (addLog st1 ("Syncing new file: " ++ pathText file.path)).fs (root ++ file.path) ≠
          some (FSEntry.dir m2) := by
        intro m2 hm
        rw [addLog_fs, h3] at hm
        simp at hm
      have hW2 := fsWriteFile_eq_ok _ (root ++ file.path) (v.readBinary file.path) now2 hnd2
      rw [syncFileCreate_file_unfold v s root now2 st1 file hGate2 hType]
      simp only [hET2, hW2]
      refine ⟨_, rfl, ?_, h3⟩
      rw [ite_addNotice_fs]
      simp [addOp, FS.stat_setEntry]

/-- A concrete vault whose adapter reports a file with two bytes. -/
def vFile : Vault :=
  { files := [], readBinary := fun _ => [104, 105],
    adapterStat := fun _ => some { type := "file" } }

/-- The state after the first concrete Created(file) application. -/
def st1C4 : SyncSt :=
  { fs := [(["t", "a", "b.md"], FSEntry.file [104, 105] 1), (["t", "a"], FSEntry.dir 1),
           (["t"], FSEntry.dir 0)],
    ops := [FSOp.mkdir ["t", "a"], FSOp.writeFile ["t", "a", "b.md"]],
    notices := ["Synced new file b.md"], logs := ["Syncing new file: a/b.md"] }

/-- Witness for C4 at a concrete Created(file) event replayed twice. -/
theorem create_idempotent_witness :
    targetPathExists stRootOnly.fs ["t"] = true ∧
    statType (vFile.adapterStat ["a", "b.md"]) = some "file" ∧
    syncFileCreate vFile DEFAULT_SETTINGS ["t"] 1 stRootOnly ⟨["a", "b.md"], "b.md"⟩ =
      .ok st1C4 ∧
    (∃ st2, syncFileCreate vFile DEFAULT_SETTINGS ["t"] 2 st1C4 ⟨["a", "b.md"], "b.md"⟩ =
        .ok st2 ∧
      FS.stat st2.fs (["t"] ++ (["a", "b.md"] : FPath)) =
        some (FSEntry.file (vFile.readBinary ["a", "b.md"]) 2) ∧
      FS.stat st1C4.fs (["t"] ++ (["a", "b.md"] : FPath)) =
        some (FSEntry.file (vFile.readBinary ["a", "b.md"]) 1)) :=
  ⟨by rfl, by rfl, by rfl,
   create_idempotent vFile DEFAULT_SETTINGS ["t"] 1 2 stRootOnly st1C4
     ⟨["a", "b.md"], "b.md"⟩ (by rfl) (by rfl) (by rfl)⟩
